import Mathlib

/-!
# Verification of the chess-game analysis pipeline

Shallow embedding of `src/chess_analysis.py` (a PySpark batch pipeline).
Nullable dataframe columns are modelled as `Option` values, SQL three-valued
conditions as `Option Bool` (a `when` branch fires only when the condition is
`some true`), floating-point aggregate arithmetic as exact rationals, and the
dataframe itself as a `List` of rows.
-/

namespace ChessAnalysis

/-- A raw row as read by `spark.read.csv` with the schema of
`process_data` (src/chess_analysis.py lines 35-50): every column is nullable. -/
structure RawRecord where
  event : Option String
  white : Option String
  black : Option String
  result : Option String
  utcDate : Option String
  utcTime : Option String
  whiteElo : Option Int
  blackElo : Option Int
  whiteRatingDiff : Option Int
  blackRatingDiff : Option Int
  eco : Option String
  opening : Option String
  timeControl : Option String
  termination : Option String
deriving Repr, DecidableEq

/-- `df.na.fill({'WhiteElo': 0, 'BlackElo': 0, 'WhiteRatingDiff': 0,
'BlackRatingDiff': 0})` (lines 56-61): replace a null in each of the four
rating columns by 0; all other columns are untouched. -/
def naFill (r : RawRecord) : RawRecord :=
  { r with
    whiteElo := some (r.whiteElo.getD 0)
    blackElo := some (r.blackElo.getD 0)
    whiteRatingDiff := some (r.whiteRatingDiff.getD 0)
    blackRatingDiff := some (r.blackRatingDiff.getD 0) }

/-- SQL three-valued comparison `col >= n`: null input gives null. -/
def geNull (x : Option Int) (n : Int) : Option Bool :=
  x.map (fun v => decide (v >= n))

/-- A SQL `WHEN` branch fires only when its condition is TRUE (not null, not
false). -/
def isTrueCond (c : Option Bool) : Bool :=
  c == some true

/-- The `StrengthCategory` when-chain (lines 65-69):
`when(WhiteElo >= 2400, "Master").when(WhiteElo >= 2000, "Expert")
.when(WhiteElo >= 1600, "Club").otherwise("Beginner")`. -/
def strengthCategory (whiteElo : Option Int) : String :=
  if isTrueCond (geNull whiteElo 2400) then "Master"
  else if isTrueCond (geNull whiteElo 2000) then "Expert"
  else if isTrueCond (geNull whiteElo 1600) then "Club"
  else "Beginner"

/-- Spark `regexp_extract(Opening, "^[^:]+", 0)` on a non-null string: the
longest prefix of characters other than `:` (the empty string when the regex
does not match, i.e. when the string is empty or starts with `:` — Spark's
`regexp_extract` returns `""` on no match). -/
def regexpExtractNonColon (s : String) : String :=
  String.mk (s.toList.takeWhile (fun c => c ≠ ':'))

/-- The `OpeningFamily` column (lines 70-71): `regexp_extract` propagates a
null subject to a null result. -/
def openingFamily (opening : Option String) : Option String :=
  opening.map regexpExtractNonColon

/-- Gregorian leap-year test. -/
def isLeapYear (y : Nat) : Bool :=
  (y % 4 == 0 && y % 100 != 0) || y % 400 == 0

/-- Days in a month of the Gregorian calendar. -/
def daysInMonth (y m : Nat) : Nat :=
  if m == 2 then (if isLeapYear y then 29 else 28)
  else if m == 4 || m == 6 || m == 9 || m == 11 then 30
  else 31

/-- A (year, month, day) triple is a valid Gregorian calendar date. -/
def validDate (y m d : Nat) : Bool :=
  1 ≤ m && m ≤ 12 && 1 ≤ d && d ≤ daysInMonth y m

/-- Numeric value of a list of decimal digit characters. -/
def digitsToNat (cs : List Char) : Nat :=
  cs.foldl (fun acc c => 10 * acc + (c.toNat - '0'.toNat)) 0

/-- Shape parse of the pattern `yyyy.MM.dd`: exactly ten characters, four
digits, a dot, two digits, a dot, two digits. -/
def parseYMD (s : String) : Option (Nat × Nat × Nat) :=
  match s.toList with
  | [y1, y2, y3, y4, c1, m1, m2, c2, d1, d2] =>
    if c1 = '.' && c2 = '.'
        && [y1, y2, y3, y4, m1, m2, d1, d2].all Char.isDigit then
      some (digitsToNat [y1, y2, y3, y4], digitsToNat [m1, m2],
            digitsToNat [d1, d2])
    else none
  | _ => none

/-- Modelled from the spec: Spark's builtin `to_date(UTCDate, "yyyy.MM.dd")`
(lines 72-73) is external engine code with no source in this repository; per
the spec it parses a 4-digit year, 2-digit month and 2-digit day separated by
`.`, yields a valid calendar date, and yields null on any parse failure. -/
def toDateModel (s : String) : Option (Nat × Nat × Nat) :=
  (parseYMD s).bind
    (fun ymd => if validDate ymd.1 ymd.2.1 ymd.2.2 then some ymd else none)

/-- The `Date` column: `to_date` propagates a null subject to null. -/
def dateCol (utcDate : Option String) : Option (Nat × Nat × Nat) :=
  utcDate.bind toDateModel

/-- Whether `sub` occurs as a contiguous substring of `s`
(Spark `Column.contains` on non-null input). -/
def strContains (s sub : String) : Bool :=
  (List.range (s.toList.length + 1)).any
    (fun i => sub.toList.isPrefixOf (s.toList.drop i))

/-- SQL three-valued `col.contains(sub)`: null input gives null. -/
def containsNull (x : Option String) (sub : String) : Option Bool :=
  x.map (fun s => strContains s sub)

/-- The `TimeFormat` when-chain (lines 74-77):
`when(TimeControl.contains("+"), "Increment")
.when(TimeControl.contains("|"), "Tournament").otherwise("Standard")`. -/
def timeFormat (timeControl : Option String) : String :=
  if isTrueCond (containsNull timeControl "+") then "Increment"
  else if isTrueCond (containsNull timeControl "|") then "Tournament"
  else "Standard"

/-- A row of the derived dataframe: the raw columns plus the four columns
attached by `withColumn` (lines 64-77). -/
structure DerivedRow where
  event : Option String
  white : Option String
  black : Option String
  result : Option String
  utcDate : Option String
  utcTime : Option String
  whiteElo : Option Int
  blackElo : Option Int
  whiteRatingDiff : Option Int
  blackRatingDiff : Option Int
  eco : Option String
  opening : Option String
  timeControl : Option String
  termination : Option String
  strengthCategory : String
  openingFamily : Option String
  date : Option (Nat × Nat × Nat)
  timeFormat : String
deriving Repr, DecidableEq

/-- Attach the four derived columns to an (already null-filled) row. -/
def deriveRow (r : RawRecord) : DerivedRow :=
  { event := r.event, white := r.white, black := r.black, result := r.result
    utcDate := r.utcDate, utcTime := r.utcTime
    whiteElo := r.whiteElo, blackElo := r.blackElo
    whiteRatingDiff := r.whiteRatingDiff
    blackRatingDiff := r.blackRatingDiff
    eco := r.eco, opening := r.opening, timeControl := r.timeControl
    termination := r.termination
    strengthCategory := strengthCategory r.whiteElo
    openingFamily := openingFamily r.opening
    date := dateCol r.utcDate
    timeFormat := timeFormat r.timeControl }

/-- `process_data` after the load: null-fill the rating columns, then attach
the derived columns (lines 56-77). -/
def processData (rs : List RawRecord) : List DerivedRow :=
  (rs.map naFill).map deriveRow

/-! ## Aggregator (`analyze_playing_patterns`, lines 86-96)

`df.groupBy(...)` produces one output row per distinct key occurring in the
data.  We model the set of group keys as the deduplicated list of per-row
keys, `count("*")` as the length of the rows matching a key, and the window
`sum("Count").over(Window.partitionBy("StrengthCategory"))` as the sum of the
group counts over the aggregated rows sharing the `StrengthCategory`. -/

/-- Grouping key of `opening_patterns`: `(StrengthCategory, OpeningFamily)`. -/
def openingKey (r : DerivedRow) : String × Option String :=
  (r.strengthCategory, r.openingFamily)

/-- The distinct `(StrengthCategory, OpeningFamily)` keys: one per output row
of `df.groupBy("StrengthCategory", "OpeningFamily")`. -/
def openingKeys (rows : List DerivedRow) : List (String × Option String) :=
  (rows.map openingKey).dedup

/-- `count("*").alias("Count")` for one group of `opening_patterns`. -/
def openingCount (rows : List DerivedRow) (k : String × Option String) : Nat :=
  (rows.filter (fun r => decide (openingKey r = k))).length

/-- `sum("Count").over(Window.partitionBy("StrengthCategory"))`: the sum of
`Count` over the aggregated rows whose `StrengthCategory` is `sc`. -/
def openingWindowSum (rows : List DerivedRow) (sc : String) : Nat :=
  (((openingKeys rows).filter (fun k => decide (k.1 = sc))).map
    (openingCount rows)).sum

/-- The `Percentage` column (lines 88-89):
`Count / sum("Count").over(Window.partitionBy("StrengthCategory")) * 100`,
with the double arithmetic modelled exactly in `ℚ`. -/
def openingPercentage (rows : List DerivedRow)
    (k : String × Option String) : ℚ :=
  (openingCount rows k : ℚ) / (openingWindowSum rows k.1 : ℚ) * 100

/-- Grouping key of `time_patterns`: `(TimeFormat, StrengthCategory)`. -/
def timeKey (r : DerivedRow) : String × String :=
  (r.timeFormat, r.strengthCategory)

/-- The rows of one `(TimeFormat, StrengthCategory)` group. -/
def timeGroup (rows : List DerivedRow) (k : String × String) :
    List DerivedRow :=
  rows.filter (fun r => decide (timeKey r = k))

/-- `count("*").alias("GamesCount")` for one group of `time_patterns`. -/
def gamesCount (rows : List DerivedRow) (k : String × String) : Nat :=
  (timeGroup rows k).length

/-- Spark's `avg` aggregate: nulls are skipped; the mean of the present
values, or null when none is present (double arithmetic modelled in `ℚ`). -/
def sparkAvg (xs : List (Option Int)) : Option ℚ :=
  let present := xs.filterMap id
  if present.isEmpty then none
  else some ((present.map (fun v : Int => (v : ℚ))).sum /
    (present.length : ℚ))

/-- `avg("WhiteElo").alias("AverageRating")` for one group (lines 92-96). -/
def averageRating (rows : List DerivedRow) (k : String × String) : Option ℚ :=
  sparkAvg ((timeGroup rows k).map (fun r => r.whiteElo))

/-- The spec's description of `OpeningFamily` on a present `Opening` string:
the substring up to but excluding the first `:` character, the entire string
when no `:` occurs. -/
def specOpeningFamily (s : String) : String :=
  if s.toList.contains ':' then String.mk (s.toList.take (s.toList.indexOf ':'))
  else s

/-- A raw record with the given rating, opening and time control; every other
column null (as a CSV row with those fields empty loads). -/
def mkRaw (elo : Option Int) (opening timeControl : Option String) :
    RawRecord :=
  { event := none, white := none, black := none, result := none
    utcDate := none, utcTime := none
    whiteElo := elo, blackElo := none
    whiteRatingDiff := none, blackRatingDiff := none
    eco := none, opening := opening, timeControl := timeControl
    termination := none }

/-! ## Helper lemmas -/

/-- Reduce the `StrengthCategory` when-chain on a non-null rating. -/
lemma strengthCategory_some (e : Int) :
    strengthCategory (some e) =
      if 2400 ≤ e then "Master"
      else if 2000 ≤ e then "Expert"
      else if 1600 ≤ e then "Club"
      else "Beginner" := by
  simp [strengthCategory, geNull, isTrueCond, ge_iff_le]

/-- Reduce the `TimeFormat` when-chain on a non-null time control. -/
lemma timeFormat_some (s : String) :
    timeFormat (some s) =
      if strContains s "+" then "Increment"
      else if strContains s "|" then "Tournament"
      else "Standard" := by
  simp [timeFormat, containsNull, isTrueCond]

/-! ## Claim theorems -/

/-- C3: for every record after derivation (`WhiteElo` is non-null after
`na.fill`), `StrengthCategory` is `"Master"` when `WhiteElo ≥ 2400`, else
`"Expert"` when `WhiteElo ≥ 2000`, else `"Club"` when `WhiteElo ≥ 1600`,
else `"Beginner"`; the boundary values map to the higher category, and the
function is total and single-valued: it always yields exactly one of the
four buckets. -/
theorem strengthCategory_bucket_spec (e : Int) :
    (2400 ≤ e → strengthCategory (some e) = "Master") ∧
    (2000 ≤ e ∧ e < 2400 → strengthCategory (some e) = "Expert") ∧
    (1600 ≤ e ∧ e < 2000 → strengthCategory (some e) = "Club") ∧
    (e < 1600 → strengthCategory (some e) = "Beginner") ∧
    (strengthCategory (some e) = "Master" ∨
     strengthCategory (some e) = "Expert" ∨
     strengthCategory (some e) = "Club" ∨
     strengthCategory (some e) = "Beginner") := by
  rw [strengthCategory_some]
  refine ⟨?_, ?_, ?_, ?_, ?_⟩ <;> split_ifs <;> try tauto
  all_goals (intros; omega)

/-- Witness for C3 at the three boundary values: 2400 is a `Master`, 2000 an
`Expert`, 1600 a `Club`, and 1599 a `Beginner`. -/
theorem strengthCategory_bucket_spec_witness :
    strengthCategory (some 2400) = "Master" ∧
    strengthCategory (some 2000) = "Expert" ∧
    strengthCategory (some 1600) = "Club" ∧
    strengthCategory (some 1599) = "Beginner" :=
  ⟨(strengthCategory_bucket_spec 2400).1 (by decide),
   (strengthCategory_bucket_spec 2000).2.1 (by decide),
   (strengthCategory_bucket_spec 1600).2.2.1 (by decide),
   (strengthCategory_bucket_spec 1599).2.2.2.1 (by decide)⟩

/-- C4: for every record with a present `TimeControl`, `TimeFormat` is
`"Increment"` when the string contains `"+"`, else `"Tournament"` when it
contains `"|"`, else `"Standard"`; in particular `"40|120+5"` classifies as
`"Increment"` because `"+"` is checked first, and the spec's other three
examples evaluate as stated. -/
theorem timeFormat_classification_spec :
    (∀ s : String, timeFormat (some s) =
      if strContains s "+" then "Increment"
      else if strContains s "|" then "Tournament"
      else "Standard") ∧
    timeFormat (some "600+5") = "Increment" ∧
    timeFormat (some "40|120") = "Tournament" ∧
    timeFormat (some "600") = "Standard" ∧
    timeFormat (some "40|120+5") = "Increment" :=
  ⟨timeFormat_some, by decide, by decide, by decide, by decide⟩

/-- C10: a record whose `TimeControl` is null derives `TimeFormat`
`"Standard"` (both `contains` conditions are null, hence not true, so the
`otherwise` branch fires), and `TimeFormat` is never null: on every input it
is one of the three strings. -/
theorem timeFormat_null_is_standard :
    timeFormat none = "Standard" ∧
    ∀ tc : Option String,
      timeFormat tc = "Increment" ∨ timeFormat tc = "Tournament" ∨
      timeFormat tc = "Standard" := by
  refine ⟨rfl, fun tc => ?_⟩
  unfold timeFormat
  split_ifs <;> tauto

/-- C9: the derived `Date` is either null or a valid Gregorian calendar date
obtained by parsing the record's `UTCDate` under the shape of the pattern
`yyyy.MM.dd`; an unparsable `UTCDate` yields null and, the derivation being a
total function, never aborts the pipeline. -/
theorem dateCol_valid_or_null (utc : Option String) :
    dateCol utc = none ∨
    ∃ y m d, dateCol utc = some (y, m, d) ∧ validDate y m d = true ∧
      ∃ s, utc = some s ∧ parseYMD s = some (y, m, d) := by
  cases utc with
  | none => exact Or.inl rfl
  | some s =>
    have hd : dateCol (some s) = toDateModel s := rfl
    rw [hd]
    unfold toDateModel
    cases hp : parseYMD s with
    | none => exact Or.inl rfl
    | some ymd =>
      by_cases hv : validDate ymd.1 ymd.2.1 ymd.2.2
      · refine Or.inr ⟨ymd.1, ymd.2.1, ymd.2.2, ?_, hv, s, rfl, ?_⟩
        · simp [hv]
        · simpa using hp
      · exact Or.inl (by simp [hv])

/-- The longest prefix avoiding `a` is the take up to the first index of `a`
(the whole list when `a` does not occur, since `indexOf` is then `length`). -/
lemma takeWhile_ne_eq_take_indexOf (a : Char) (l : List Char) :
    l.takeWhile (fun c => c ≠ a) = l.take (l.indexOf a) := by
  induction l with
  | nil => rfl
  | cons c l ih =>
    by_cases hc : c = a
    · subst hc
      simp [List.takeWhile_cons, List.indexOf_cons_self]
    · rw [List.indexOf_cons_ne _ hc, List.takeWhile_cons]
      have hb : (decide (c ≠ a)) = true := by simpa using hc
      rw [hb]
      simp only [if_true, Nat.succ_eq_add_one, List.take_succ_cons]
      rw [ih]

lemma mk_toList (s : String) : String.mk s.toList = s := rfl

/-- The code's regexp extraction agrees with the spec's first-colon formula on
every (non-null) string. -/
lemma regexpExtractNonColon_eq_spec (s : String) :
    regexpExtractNonColon s = specOpeningFamily s := by
  unfold regexpExtractNonColon specOpeningFamily
  rw [takeWhile_ne_eq_take_indexOf]
  by_cases h : s.toList.contains ':'
  · rw [if_pos h]
  · rw [if_neg h]
    rw [List.indexOf_eq_length.mpr (by simpa using h)]
    rw [List.take_length]
    exact mk_toList s

/-- A raw record whose `Opening` column is null (as a CSV row with an empty
`Opening` field loads). -/
def rawNullOpening : RawRecord := mkRaw (some 1800) none (some "600")

/-- C5 counterexample: the pipeline record derived from a row with a null
`Opening` has a null `OpeningFamily` — `regexp_extract` propagates the null —
so `OpeningFamily` is not defined for every record. -/
theorem openingFamily_null_opening_counterexample :
    (processData [rawNullOpening]).map DerivedRow.openingFamily = [none] ∧
    ((processData [rawNullOpening]).map
      (fun r => (DerivedRow.openingFamily r).isSome)) = [false] := by
  constructor <;> rfl

/-- C5 (amended): for every record whose `Opening` is present, the derived
`OpeningFamily` is present and equals the substring of `Opening` up to but
excluding the first `:` character — the entire `Opening` string when no `:`
occurs; a record with a null `Opening` instead derives a null
`OpeningFamily`. -/
theorem openingFamily_first_colon_spec :
    (∀ s : String, openingFamily (some s) = some (specOpeningFamily s)) ∧
    (∀ s : String, s.toList.contains ':' = false →
      openingFamily (some s) = some s) ∧
    openingFamily none = none := by
  refine ⟨?_, ?_, rfl⟩
  · intro s
    simp [openingFamily, regexpExtractNonColon_eq_spec]
  · intro s h
    simp only [openingFamily, Option.map_some', Option.some.injEq,
      regexpExtractNonColon_eq_spec]
    unfold specOpeningFamily
    rw [if_neg (by rw [h]; simp)]

/-- Witness for C5 (amended) on the spec's own example: the opening
`Italian Game: Evans Gambit` has family `Italian Game`, and a colon-free
opening is its own family. -/
theorem openingFamily_first_colon_spec_witness :
    openingFamily (some "Italian Game: Evans Gambit") =
      some (specOpeningFamily "Italian Game: Evans Gambit") ∧
    (String.toList "Sicilian Defense").contains ':' = false ∧
    openingFamily (some "Sicilian Defense") = some "Sicilian Defense" :=
  ⟨openingFamily_first_colon_spec.1 "Italian Game: Evans Gambit",
   by decide,
   openingFamily_first_colon_spec.2.1 "Sicilian Defense" (by decide)⟩

/-- Over a duplicate-free list containing `b0`, the indicator of `b0` sums
to exactly one. -/
lemma sum_map_indicator_one {β : Type} [DecidableEq β] (ks : List β) (b0 : β)
    (hnd : ks.Nodup) (hmem : b0 ∈ ks) :
    (ks.map (fun b => if b0 = b then (1 : Nat) else 0)).sum = 1 := by
  induction ks with
  | nil => cases hmem
  | cons k ks ih =>
    rcases List.nodup_cons.mp hnd with ⟨hk, hnd2⟩
    rcases List.mem_cons.mp hmem with h | h
    · subst h
      simp only [List.map_cons, List.sum_cons, if_pos rfl]
      have hz : ks.map (fun b => if b0 = b then (1 : Nat) else 0) =
          ks.map (fun _ => (0 : Nat)) := by
        apply List.map_congr_left
        intro b hb
        have hne : b0 ≠ b := fun he => hk (he ▸ hb)
        simp [hne]
      rw [hz]
      simp
    · have hne : b0 ≠ k := fun he => hk (he ▸ h)
      simp only [List.map_cons, List.sum_cons, if_neg hne]
      rw [ih hnd2 h]

/-- Fibre-counting: when every element of `l` has its key in the
duplicate-free list `ks`, the per-key filter lengths sum to the length of
`l`. -/
lemma sum_length_filter_eq_length {α β : Type} [DecidableEq β]
    (ks : List β) (f : α → β) (hnd : ks.Nodup) :
    ∀ l : List α, (∀ a ∈ l, f a ∈ ks) →
      (ks.map (fun b =>
        (l.filter (fun x => decide (f x = b))).length)).sum = l.length := by
  intro l
  induction l with
  | nil =>
    intro _
    simp
  | cons a l ih =>
    intro hmem
    have h1 : (fun b => ((a :: l).filter
          (fun x => decide (f x = b))).length) =
        fun b => (if f a = b then 1 else 0) +
          (l.filter (fun x => decide (f x = b))).length := by
      funext b
      by_cases h : f a = b <;> simp [List.filter_cons, h, Nat.add_comm]
    rw [h1, List.sum_map_add]
    rw [sum_map_indicator_one ks (f a) hnd (hmem a (List.mem_cons_self a l))]
    rw [ih (fun x hx => hmem x (List.mem_cons_of_mem a hx))]
    simp [List.length_cons, Nat.add_comm]

/-- The window sum `sum("Count").over(Window.partitionBy("StrengthCategory"))`
equals the number of derived rows whose `StrengthCategory` is `sc`: the
`(StrengthCategory, OpeningFamily)` groups partition the `StrengthCategory`
partition. -/
lemma openingWindowSum_eq_partition_length (rows : List DerivedRow)
    (sc : String) :
    openingWindowSum rows sc =
      (rows.filter (fun r => decide (r.strengthCategory = sc))).length := by
  classical
  set l := rows.filter (fun r => decide (r.strengthCategory = sc)) with hl
  set ks := (openingKeys rows).filter (fun k => decide (k.1 = sc)) with hks
  have hknodup : ks.Nodup :=
    List.Nodup.filter _ (List.nodup_dedup (rows.map openingKey))
  have hkey_sc : ∀ k ∈ ks, k.1 = sc := by
    intro k hk
    have := (List.mem_filter.mp hk).2
    simpa using this
  have hstep : ∀ k ∈ ks, openingCount rows k =
      (l.filter (fun r => decide (openingKey r = k))).length := by
    intro k hk
    unfold openingCount
    congr 1
    rw [hl, List.filter_filter]
    apply List.filter_congr
    intro r _
    by_cases h : openingKey r = k
    · have hsc2 : r.strengthCategory = sc := by
        rw [← hkey_sc k hk]
        exact congrArg Prod.fst h
      simp [h, hsc2]
    · simp [h]
  have hmem : ∀ r ∈ l, openingKey r ∈ ks := by
    intro r hr
    rcases List.mem_filter.mp hr with ⟨hrows, hsc2⟩
    apply List.mem_filter.mpr
    refine ⟨List.mem_dedup.mpr (List.mem_map_of_mem openingKey hrows), ?_⟩
    simpa [openingKey] using of_decide_eq_true hsc2
  calc openingWindowSum rows sc
      = (ks.map (openingCount rows)).sum := rfl
    _ = (ks.map (fun k =>
          (l.filter (fun r => decide (openingKey r = k))).length)).sum := by
        rw [List.map_congr_left hstep]
    _ = l.length := sum_length_filter_eq_length ks openingKey hknodup l hmem

/-- C1: in the opening-pattern summary, the `Percentage` of every
`(StrengthCategory, OpeningFamily)` group equals 100 times the group's
`Count` divided by the sum of `Count` over all groups sharing that
`StrengthCategory` — which this theorem identifies with the partition total
keyed solely on `StrengthCategory` (the number of rows of that
`StrengthCategory`), not with the global row count. -/
theorem openingPercentage_is_partition_ratio (rows : List DerivedRow)
    (k : String × Option String) :
    openingPercentage rows k =
      100 * (openingCount rows k : ℚ) /
        ((rows.filter
          (fun r => decide (r.strengthCategory = k.1))).length : ℚ) := by
  rw [openingPercentage, openingWindowSum_eq_partition_length]
  ring

/-- C2: within every non-empty `StrengthCategory` partition, the
`Percentage` values of its `OpeningFamily` groups sum to exactly 100 (the
double arithmetic is modelled exactly in `ℚ`). -/
theorem openingPercentage_sum_within_category (rows : List DerivedRow)
    (sc : String) (h : ∃ r ∈ rows, r.strengthCategory = sc) :
    (((openingKeys rows).filter (fun k => decide (k.1 = sc))).map
      (openingPercentage rows)).sum = 100 := by
  classical
  set ks := (openingKeys rows).filter (fun k => decide (k.1 = sc)) with hks
  have hW : openingWindowSum rows sc ≠ 0 := by
    rw [openingWindowSum_eq_partition_length]
    obtain ⟨r, hr, hsc⟩ := h
    have hmem : r ∈ rows.filter
        (fun r => decide (r.strengthCategory = sc)) :=
      List.mem_filter.mpr ⟨hr, by simp [hsc]⟩
    intro h0
    rw [List.length_eq_zero.mp h0] at hmem
    exact List.not_mem_nil r hmem
  have hWq : ((openingWindowSum rows sc : ℚ)) ≠ 0 :=
    Nat.cast_ne_zero.mpr hW
  have hmap : ks.map (openingPercentage rows) =
      ks.map (fun k => (openingCount rows k : ℚ) *
        (100 / (openingWindowSum rows sc : ℚ))) := by
    apply List.map_congr_left
    intro k hk
    have hsc : k.1 = sc := by
      have := (List.mem_filter.mp hk).2
      simpa using this
    rw [openingPercentage, hsc]
    ring
  rw [hmap, List.sum_map_mul_right]
  have hcast : (ks.map (fun k => (openingCount rows k : ℚ))).sum =
      (openingWindowSum rows sc : ℚ) := by
    have : openingWindowSum rows sc = (ks.map (openingCount rows)).sum := rfl
    rw [this, Nat.cast_list_sum, List.map_map]
    rfl
  rw [hcast]
  field_simp

/-- A small concrete dataset: two Master games with different opening
families, one Club game, and one row whose rating and opening are null. -/
def sampleRaws : List RawRecord :=
  [ mkRaw (some 2500) (some "Italian Game: Evans Gambit") (some "600+5"),
    mkRaw (some 2450) (some "Sicilian Defense") (some "600+5"),
    mkRaw (some 1700) (some "Sicilian Defense") none,
    mkRaw none none (some "600") ]

/-- The derived dataset of the sample. -/
def sampleRows : List DerivedRow := processData sampleRaws

/-- Witness for C2: on the sample dataset the `Master` partition is
non-empty and its percentages sum to 100. -/
theorem openingPercentage_sum_within_category_witness :
    (∃ r ∈ sampleRows, r.strengthCategory = "Master") ∧
    (((openingKeys sampleRows).filter
        (fun k => decide (k.1 = "Master"))).map
      (openingPercentage sampleRows)).sum = 100 :=
  ⟨by decide,
   openingPercentage_sum_within_category sampleRows "Master" (by decide)⟩

/-- Spark's `avg` over a column whose every value is present: nothing is
skipped, so the mean is the sum over all rows divided by the full row
count. -/
lemma sparkAvg_map_some {α : Type} (g : List α) (f : α → Int) (hg : g ≠ []) :
    sparkAvg (g.map (fun a => some (f a))) =
      some ((g.map (fun a => ((f a : Int) : ℚ))).sum / (g.length : ℚ)) := by
  unfold sparkAvg
  have h1 : (g.map (fun a => some (f a))).filterMap id = g.map f := by
    rw [List.filterMap_map]
    exact congrFun (List.filterMap_eq_map f) g
  have h2 : (g.map f).isEmpty = false := by
    simp [List.isEmpty_iff, hg]
  simp only [h1, h2]
  simp [List.map_map, Function.comp_def]

/-- C6: after the load, each of the four rating columns of every derived row
is `some` of the raw value with null replaced by 0 — never null — and for
every non-empty `(TimeFormat, StrengthCategory)` group the `AverageRating`
is the mean of `WhiteElo` over ALL rows of the group: the zero-filled rows
are excluded neither from the numerator nor from the denominator. -/
theorem rating_fill_never_null_and_average_inclusive
    (rs : List RawRecord) (k : String × String)
    (h : timeGroup (processData rs) k ≠ []) :
    ((processData rs).map DerivedRow.whiteElo =
      rs.map (fun r => some (r.whiteElo.getD 0))) ∧
    ((processData rs).map DerivedRow.blackElo =
      rs.map (fun r => some (r.blackElo.getD 0))) ∧
    ((processData rs).map DerivedRow.whiteRatingDiff =
      rs.map (fun r => some (r.whiteRatingDiff.getD 0))) ∧
    ((processData rs).map DerivedRow.blackRatingDiff =
      rs.map (fun r => some (r.blackRatingDiff.getD 0))) ∧
    averageRating (processData rs) k =
      some (((timeGroup (processData rs) k).map
          (fun d => ((d.whiteElo.getD 0 : Int) : ℚ))).sum /
        ((timeGroup (processData rs) k).length : ℚ)) := by
  refine ⟨?_, ?_, ?_, ?_, ?_⟩
  · simp only [processData, List.map_map]
    rfl
  · simp only [processData, List.map_map]
    rfl
  · simp only [processData, List.map_map]
    rfl
  · simp only [processData, List.map_map]
    rfl
  · have hall : ∀ d ∈ timeGroup (processData rs) k,
        d.whiteElo = some (d.whiteElo.getD 0) := by
      intro d hd
      have hd2 : d ∈ processData rs := (List.mem_filter.mp hd).1
      have hd3 : d ∈ rs.map (fun r => deriveRow (naFill r)) := by
        simpa [processData, List.map_map] using hd2
      rcases List.mem_map.mp hd3 with ⟨r, _, hr⟩
      rw [← hr]
      rfl
    have hxs : (timeGroup (processData rs) k).map (fun r => r.whiteElo) =
        (timeGroup (processData rs) k).map
          (fun r => some (r.whiteElo.getD 0)) :=
      List.map_congr_left hall
    unfold averageRating
    rw [hxs]
    exact sparkAvg_map_some (timeGroup (processData rs) k)
      (fun r => r.whiteElo.getD 0) h

/-- A sample with two rows in the same `(Standard, Beginner)` group, one of
them with a null `WhiteElo` that fills to 0. -/
def sampleRawsAvg : List RawRecord :=
  [ mkRaw (some 1000) none (some "600"), mkRaw none none (some "600") ]

/-- Witness for C6: on the two-row sample the group is non-empty, the
zero-filled row is in it with value 0, and the mean ranges over both rows. -/
theorem rating_fill_never_null_witness :
    (timeGroup (processData sampleRawsAvg) ("Standard", "Beginner") ≠ []) ∧
    ((timeGroup (processData sampleRawsAvg) ("Standard", "Beginner")).map
        (fun d => d.whiteElo.getD 0) = [1000, 0]) ∧
    averageRating (processData sampleRawsAvg) ("Standard", "Beginner") =
      some (((timeGroup (processData sampleRawsAvg)
            ("Standard", "Beginner")).map
          (fun d => ((d.whiteElo.getD 0 : Int) : ℚ))).sum /
        ((timeGroup (processData sampleRawsAvg)
            ("Standard", "Beginner")).length : ℚ)) :=
  ⟨by decide, by decide,
   (rating_fill_never_null_and_average_inclusive sampleRawsAvg
      ("Standard", "Beginner") (by decide)).2.2.2.2⟩

end ChessAnalysis
